import Mathlib

/-!
Verification development for the `search-custom-markers` pipeline
(file `search-custom-markers.py`).

The script enumerates genomes and markers, runs `hmmsearch` per
(genome, marker) pair writing a tabular report to
`out/<genome>/<genome>-<marker>.out`, then walks `out/`, reconstructs the
(genome, marker) pair of every report from its *filename* (splitting on
`-` and stripping `.out`), counts the hits of each report with Biopython
`SearchIO.parse(..., "hmmer3-tab")`, aggregates the counts into a dict of
dicts, and assembles a pandas DataFrame whose columns are the markers that
matched nowhere (in marker-input order) followed by the observed markers
(in first-seen order), filling missing cells with 0 and writing a CSV.

The embedding below models:
  * genome and marker identifiers as `String`s (the script derives them
    from filenames; that derivation is not modelled — identifiers are
    taken as given, the same value in the search phase and the
    reformatting phase);
  * the external search capability as a function
    `hits : String → String → Nat` giving the number of qualifying hits
    the engine reports for each (genome, marker) pair;
  * a report file as `Report`: either a well-formed tabular report with a
    hit count, or malformed content;
  * Biopython `SearchIO.parse` on the `hmmer3-tab` format: the format has
    one row per hit and query results are grouped from rows, so a
    well-formed report with `n` hits yields one query result holding `n`
    hits when `n > 0` and *no* query result at all when `n = 0`;
    malformed content raises;
  * Python `dict` as an insertion-ordered association list (assignment to
    an existing key overwrites in place, a new key is appended);
  * the filesystem seen by the parsing phase as a list of directories in
    walk order (each a list of file names in listing order) plus a map
    from full paths to file contents.

Python string operations used by the script are modelled character-exactly
on `List Char`: `split` on a one-character separator, and `replace` of the
fixed pattern `".out"` by `""` (which replaces *every* occurrence, left to
right, not only a suffix).
-/

namespace MetabolisHMM

/-! ## Python string primitives -/

/-- Python `s.split(sep)` for a one-character separator, on `List Char`:
`"" ↦ [""]`, `"a--b" ↦ ["a", "", "b"]`. -/
def splitCh (sep : Char) : List Char → List (List Char)
  | [] => [[]]
  | c :: cs =>
    if c = sep then [] :: splitCh sep cs
    else
      match splitCh sep cs with
      | [] => [[c]]
      | t :: ts => (c :: t) :: ts

/-- The character list of the pattern `".out"`. -/
def outPat : List Char := ['.', 'o', 'u', 't']

/-- Python `s.replace(".out", "")` on `List Char`: remove every occurrence
of `".out"`, scanning left to right. -/
def stripOut : List Char → List Char
  | [] => []
  | '.' :: 'o' :: 'u' :: 't' :: rest => stripOut rest
  | c :: cs => c :: stripOut cs

/-- Python `s.split("-")` on `String`s. -/
def pySplitDash (s : String) : List String :=
  (splitCh '-' s.data).map (fun l => ⟨l⟩)

/-- Python `s.replace(".out", "")` on `String`s. -/
def pyStripOut (s : String) : String :=
  ⟨stripOut s.data⟩

/-- Python list indexing `l[i]`: raises `IndexError` when out of range. -/
def pyGet (l : List String) (i : Nat) : Except String String :=
  match l.get? i with
  | some v => Except.ok v
  | none => Except.error "IndexError"

/-! ## Python dicts as insertion-ordered association lists -/

/-- Python `d[k] = v`: overwrite in place when `k` is already a key
(keeping its position), append `(k, v)` otherwise. -/
def pyDictSet {β : Type} (d : List (String × β)) (k : String) (v : β) :
    List (String × β) :=
  if d.any (fun p => p.1 == k) then
    d.map (fun p => if p.1 == k then (k, v) else p)
  else d ++ [(k, v)]

/-- Python `d[k]` as an option: the value of the first (hence unique)
entry with key `k`. -/
def pyDictFind? {β : Type} (d : List (String × β)) (k : String) : Option β :=
  (d.find? (fun p => p.1 == k)).map Prod.snd

/-- Record an element in a list if it is not already there (used to track
first-seen orders: dict key insertion, column union). -/
def insertNew (l : List String) (x : String) : List String :=
  if l.contains x then l else l ++ [x]

/-- A per-genome dict `marker ↦ hit count` (the script's `genome_dict`). -/
abbrev Dict := List (String × Nat)

/-- The script's `all_dicts`: `genome ↦ its genome_dict`, insertion
ordered. -/
abbrev AllDicts := List (String × Dict)

/-! ## Reports and the external parsing capability -/

/-- Content of one persisted report file: either a well-formed
`hmmsearch --tblout` report listing `numHits` qualifying hits, or
malformed content. -/
inductive Report where
  | ok (numHits : Nat) : Report
  | malformed : Report
deriving DecidableEq

/-- Biopython `SearchIO.parse(input, "hmmer3-tab")`, returning the list of
hit counts of the query results found in the file. The `hmmer3-tab` format
has one row per hit and query results are grouped from the rows, so a
well-formed report with `n` hits yields one query result with `n` hits
when `n > 0` and no query result at all when `n = 0`; malformed content
raises a parse error. -/
def parseQResults : Report → Except String (List Nat)
  | Report.ok 0 => Except.ok []
  | Report.ok n => Except.ok [n]
  | Report.malformed => Except.error "ParseError"

/-! ## The filesystem seen by the parsing phase -/

/-- The part of the filesystem the parsing phase reads: the genome
subdirectories of `out/` in `os.walk` order, each with its file names in
listing order, plus the contents keyed by full path. `os.walk("out/")`
also yields the root `out/` itself, with no files; that entry contributes
nothing and is omitted. -/
structure FS where
  dirs : List (String × List String)
  content : String → Option Report

/-! ## Search orchestration (lines 28-37) -/

/-- Report file name written by the search loop (line 34):
`name + "-" + prot + ".out"`. -/
def fileName (g m : String) : String := g ++ "-" ++ m ++ ".out"

/-- Full path of a report written by the search loop (line 34):
`"out/" + dir + "/" + name + "-" + prot + ".out"` with `dir = name`. -/
def outPath (g m : String) : String := "out/" ++ g ++ "/" ++ fileName g m

/-- Contents of the report tree after the search loop: path
`outPath g m` holds a well-formed report with `hits g m` hits, for each
`g` in the genome list and `m` in the marker list. When two pairs map to
the same path (possible only for ill-formed identifiers, e.g. containing
`/`) the real script would overwrite one report with the other; this
model returns the first matching pair. Theorems about full runs assume
well-formed identifiers, for which paths are injective and the case does
not arise. -/
def orchContent (genomes markers : List String) (hits : String → String → Nat)
    (p : String) : Option Report :=
  genomes.findSome? fun g =>
    markers.findSome? fun m =>
      if p = outPath g m then some (Report.ok (hits g m)) else none

/-- The filesystem produced by the search loop: one directory per genome
(in input order, which is also creation order), holding one report per
marker (in marker-input order). -/
def orchFS (genomes markers : List String) (hits : String → String → Nat) : FS :=
  { dirs := genomes.map (fun g => (g, markers.map (fun m => fileName g m)))
    content := orchContent genomes markers hits }

/-! ## Report parsing and aggregation (lines 41-54) -/

/-- Line 46: `genome = file.split("-")[0]`. -/
def parsedGenome (file : String) : Except String String :=
  pyGet (pySplitDash file) 0

/-- Line 47: `prot = file.replace(".out", "").split("-")[1]`. -/
def parsedProt (file : String) : Except String String :=
  pyGet (pySplitDash (pyStripOut file)) 1

/-- Body of the inner loop over `files` (lines 45-54) for one file,
transforming the state `(genome_dict, assigned)` where `assigned` is the
list of `all_dicts` keys assigned so far in this directory, in first
assignment order. `all_dicts[key] = genome_dict` stores a reference to the
still-mutating `genome_dict`, so only the keys and their first-assignment
order need recording here; the final dict is attached when the directory
is done. Failures (`IndexError` from the split, `IOError` from `open` on
a non-existent reconstructed path, a parse error from `SearchIO.parse`)
propagate: the script has no exception handling. -/
def processFileStep (content : String → Option Report)
    (st : Dict × List String) (file : String) :
    Except String (Dict × List String) :=
  match parsedGenome file with
  | Except.error e => Except.error e
  | Except.ok genome =>
    match parsedProt file with
    | Except.error e => Except.error e
    | Except.ok prot =>
      match content ("out/" ++ genome ++ "/" ++ file) with
      | none => Except.error "IOError"
      | some rep =>
        match parseQResults rep with
        | Except.error e => Except.error e
        | Except.ok qrs =>
          Except.ok (qrs.foldl
            (fun st n => (pyDictSet st.1 prot n, insertNew st.2 genome)) st)

/-- Process one directory of the walk (lines 44-54): fold
`processFileStep` over its files starting from a fresh `genome_dict` and
no assigned keys. -/
def processDir (content : String → Option Report) (files : List String) :
    Except String (Dict × List String) :=
  files.foldlM (processFileStep content) ([], [])

/-- Lines 41-54: walk the report tree and build `all_dicts`. Each
directory contributes its final `genome_dict` under every key assigned
while processing it (in first-assignment order); an exception anywhere
aborts the whole phase. -/
def parseAll (fs : FS) : Except String AllDicts :=
  fs.dirs.foldlM
    (fun ad d =>
      (processDir fs.content d.2).map
        (fun r => r.2.foldl (fun ad k => pyDictSet ad k r.1) ad))
    []

/-! ## Matrix assembly (lines 55-68) -/

/-- The result matrix: column labels and rows (genome label with the cell
values aligned with `cols`). -/
structure DF where
  cols : List String
  rows : List (String × List Nat)
deriving DecidableEq

/-- Columns of `pd.DataFrame.from_dict(all_dicts, orient="index")`: the
union of the inner dicts' keys, in first-encountered order scanning the
rows in insertion order (`existing_markers` at line 60). -/
def dfColumns (ad : AllDicts) : List String :=
  ad.foldl (fun acc r => r.2.foldl (fun acc kv => insertNew acc kv.1) acc) []

/-- Lines 55-68: build the DataFrame, prepend the input markers observed
nowhere (`absent` columns, lines 58-64, in marker-input order), reindex to
that column order and fill missing cells with 0 (lines 67-68). Rows are
the `all_dicts` entries in insertion order. -/
def assemble (ad : AllDicts) (markers : List String) : DF :=
  let existing := dfColumns ad
  let allCols := markers.filter (fun p => !existing.contains p) ++ existing
  { cols := allCols
    rows := ad.map (fun r =>
      (r.1, allCols.map (fun c => (pyDictFind? r.2 c).getD 0))) }

/-- Line 69 `df_all.to_csv(OUTFILE)`: header line with an empty index-name
field, then one line per row. Numeric rendering (pandas may print a count
as a float when the column went through `NaN`) is abstracted: cells are
printed as the decimal numerals of their counts. -/
def dfToCsv (df : DF) : String :=
  "," ++ String.intercalate "," df.cols ++ "\n"
    ++ String.join (df.rows.map (fun r =>
        r.1 ++ "," ++ String.intercalate "," (r.2.map toString) ++ "\n"))

/-! ## The whole pipeline -/

/-- The full run on given genome and marker identifier lists (in
enumeration order) and search results: orchestrate, parse, assemble.
Duplicate genome identifiers would in fact crash the script earlier
(`os.mkdir` of an existing directory); the claims below assume
duplicate-free genome lists where it matters. -/
def runPipeline (genomes markers : List String)
    (hits : String → String → Nat) : Except String DF :=
  (parseAll (orchFS genomes markers hits)).map (fun ad => assemble ad markers)

/-! ## Well-formed identifiers

The parsing phase reconstructs each (genome, marker) pair from the report
file name alone. The reconstruction is exact when identifiers contain no
`-` (the separator the file name is split on), no `/` (so paths have an
unambiguous directory structure) and no occurrence of `.out` (so
`replace(".out", "")` removes exactly the file extension). -/

/-- An identifier on which the script's filename round trip is exact. -/
def goodId (s : String) : Prop :=
  ('-' ∉ s.data) ∧ ('/' ∉ s.data) ∧ ¬ outPat <:+: s.data

instance (s : String) : Decidable (goodId s) := by
  unfold goodId outPat
  infer_instance

/-! ## Identifier-level form of the aggregation

For well-formed identifiers the parsing phase of a full run reduces to a
computation on the identifiers themselves: each genome contributes its
nonzero-hit markers, and a genome appears in `all_dicts` if and only if
some marker matched it at least once. -/

/-- Whether some marker of `M` has at least one hit in genome `g`. -/
def hasHit (M : List String) (hits : String → String → Nat) (g : String) : Bool :=
  M.any (fun m => hits g m != 0)

/-- The final `genome_dict` of genome `g`: one entry per marker with a
nonzero hit count, in marker order. -/
def gdOf (M : List String) (hits : String → String → Nat) (g : String) : Dict :=
  M.foldl (fun gd m => if hits g m = 0 then gd else pyDictSet gd m (hits g m)) []

/-- The final `all_dicts` of a full run on well-formed identifiers. -/
def idAgg (G M : List String) (hits : String → String → Nat) : AllDicts :=
  G.foldl
    (fun ad g => if hasHit M hits g then pyDictSet ad g (gdOf M hits g) else ad)
    []

/-- Both identifier lists are entirely well formed. -/
def goodIds (G M : List String) : Prop :=
  (∀ g ∈ G, goodId g) ∧ (∀ m ∈ M, goodId m)

instance (G M : List String) : Decidable (goodIds G M) := by
  unfold goodIds
  infer_instance

/-! ## Reading a cell of the matrix -/

/-- Value of the first entry of a row whose column label is `c` (labels
are unique in an assembled matrix, so this is the cell at `(row, c)`). -/
def rowLookup : List String → List Nat → String → Option Nat
  | c0 :: cols, v :: vals, c => if c0 == c then some v else rowLookup cols vals c
  | _, _, _ => none

/-- The cell of `df` at genome row `g` and marker column `c`: `none` when
`g` has no row or `c` no column. -/
def dfCell (df : DF) (g c : String) : Option Nat :=
  (df.rows.find? (fun r => r.1 == g)).bind (fun r => rowLookup df.cols r.2 c)

/-- Every count of the dict is positive. -/
def dictPos (d : Dict) : Prop := ∀ kv ∈ d, 1 ≤ kv.2

/-- Every count of every dict is positive. -/
def allDictsPos (ad : AllDicts) : Prop := ∀ r ∈ ad, dictPos r.2

/-- A column of the matrix holds only zeros: every row has value 0 at
every position carrying that column label. -/
def colAll0 (df : DF) (c : String) : Prop :=
  ∀ r ∈ df.rows, ∀ i : Nat, df.cols.get? i = some c → r.2.get? i = some 0

/-- A column of the matrix has a nonzero entry in some row. -/
def colHasPos (df : DF) (c : String) : Prop :=
  ∃ r ∈ df.rows, ∃ i : Nat, df.cols.get? i = some c
    ∧ ∃ v, r.2.get? i = some v ∧ 1 ≤ v

/-- Line 48: the path the parsing loop reconstructs from a file name:
`"out/" + genome + "/" + file` with `genome = file.split("-")[0]`. -/
def reconPath (file : String) : Except String String :=
  (parsedGenome file).map (fun genome => "out/" ++ genome ++ "/" ++ file)

/-- A report tree for two genomes and one marker in which the report of
pair `("A", "m1")` is malformed while the report of `("B", "m1")` is well
formed with 2 hits. -/
def badFS : FS :=
  { dirs := [("A", ["A-m1.out"]), ("B", ["B-m1.out"])]
    content := fun p =>
      if p = outPath "A" "m1" then some Report.malformed
      else if p = outPath "B" "m1" then some (Report.ok 2) else none }

/-- The same report tree with the report of `("A", "m1")` well formed
(1 hit) instead of malformed. -/
def goodFS : FS :=
  { dirs := [("A", ["A-m1.out"]), ("B", ["B-m1.out"])]
    content := fun p =>
      if p = outPath "A" "m1" then some (Report.ok 1)
      else if p = outPath "B" "m1" then some (Report.ok 2) else none }

/-! ## Lemmas about the string primitives -/

theorem splitCh_ne_nil (sep : Char) (l : List Char) : splitCh sep l ≠ [] := by
  match l with
  | [] => simp [splitCh]
  | c :: cs =>
    simp only [splitCh]
    split
    · simp
    · split <;> simp

theorem splitCh_of_not_mem (sep : Char) (l : List Char) (h : sep ∉ l) :
    splitCh sep l = [l] := by
  induction l with
  | nil => rfl
  | cons c cs ih =>
    have hc : ¬ c = sep := fun hc => h (hc ▸ List.mem_cons_self c cs)
    have hcs : sep ∉ cs := fun hm => h (List.mem_cons_of_mem c hm)
    simp only [splitCh, if_neg hc, ih hcs]

theorem splitCh_append (sep : Char) (a b : List Char) (h : sep ∉ a) :
    splitCh sep (a ++ sep :: b) = a :: splitCh sep b := by
  induction a with
  | nil => simp [splitCh]
  | cons c a' ih =>
    have hc : ¬ c = sep := fun hc => h (hc ▸ List.mem_cons_self c a')
    have ha' : sep ∉ a' := fun hm => h (List.mem_cons_of_mem c hm)
    simp only [List.cons_append, splitCh, List.append_eq, ih ha', if_neg hc]

theorem stripOut_cons_of_no_match (c : Char) (cs : List Char)
    (h : ¬ outPat <+: (c :: cs)) :
    stripOut (c :: cs) = c :: stripOut cs := by
  rw [stripOut.eq_def]
  split
  · rename_i heq
    exact absurd heq (by simp)
  · rename_i rest heq
    exact absurd (heq ▸ ⟨rest, rfl⟩) h
  · rename_i c2 cs2 hne heq
    injection heq with h1 h2
    subst h1; subst h2
    rfl

theorem stripOut_out (rest : List Char) :
    stripOut ('.' :: 'o' :: 'u' :: 't' :: rest) = stripOut rest := rfl

/-- The pattern `.out` cannot start at the head of `c :: cs` extended by a
separator block `sep :: b` (with `sep` not a pattern character) unless it
already starts at the head of `c :: cs`: any window reaching into
`sep :: b` would need `sep` to be a pattern character. -/
theorem not_prefix_outPat_window (c : Char) (cs b : List Char) (sep : Char)
    (hsep : sep ∉ outPat)
    (h : ¬ outPat <+: (c :: cs)) :
    ¬ outPat <+: (c :: (cs ++ sep :: b)) := by
  intro hpre
  match cs, hpre with
  | [], ⟨t, ht⟩ =>
    simp only [outPat, List.cons_append, List.nil_append, List.cons.injEq] at ht
    exact hsep (by rw [← ht.2.1]; simp [outPat])
  | [d], ⟨t, ht⟩ =>
    simp only [outPat, List.cons_append, List.nil_append, List.singleton_append,
      List.cons.injEq] at ht
    exact hsep (by rw [← ht.2.2.1]; simp [outPat])
  | [d, e], ⟨t, ht⟩ =>
    simp only [outPat, List.cons_append, List.nil_append, List.cons.injEq] at ht
    exact hsep (by rw [← ht.2.2.2.1]; simp [outPat])
  | d :: e :: f :: cs', ⟨t, ht⟩ =>
    simp only [outPat, List.cons_append, List.nil_append, List.cons.injEq] at ht
    apply h
    refine ⟨cs', ?_⟩
    simp only [outPat, List.cons_append, List.nil_append, List.cons.injEq]
    exact ⟨ht.1, ht.2.1, ht.2.2.1, ht.2.2.2.1, trivial⟩

/-- Python `replace(".out", "")` distributes over a separator character
that does not occur in the pattern (such as `-` or `/`): no occurrence of
`.out` can span the separator. -/
theorem stripOut_append_sep (sep : Char) (hsep : sep ∉ outPat) (a b : List Char) :
    stripOut (a ++ sep :: b) = stripOut a ++ sep :: stripOut b := by
  induction a using stripOut.induct with
  | case1 =>
    simp only [List.nil_append]
    rw [stripOut_cons_of_no_match]
    · simp [stripOut]
    · rintro ⟨t, ht⟩
      simp only [outPat, List.cons_append, List.nil_append, List.cons.injEq] at ht
      exact hsep (by rw [← ht.1]; simp [outPat])
  | case2 rest ih =>
    simp only [List.cons_append, stripOut_out, ih]
  | case3 c cs hne ih =>
    have hnp : ¬ outPat <+: (c :: cs) := by
      rintro ⟨t, ht⟩
      simp only [outPat, List.cons_append, List.nil_append, List.cons.injEq] at ht
      exact hne t ht.1.symm ht.2.symm
    rw [List.cons_append,
      stripOut_cons_of_no_match _ _ (not_prefix_outPat_window c cs b sep hsep hnp),
      stripOut_cons_of_no_match _ _ hnp, List.cons_append, ih]

theorem stripOut_of_no_occurrence (l : List Char) (h : ¬ outPat <:+: l) :
    stripOut l = l := by
  induction l using stripOut.induct with
  | case1 => rfl
  | case2 rest ih =>
    exact absurd ⟨[], rest, by simp [outPat]⟩ h
  | case3 c cs hne ih =>
    have hnp : ¬ outPat <+: (c :: cs) := fun hp => h hp.isInfix
    rw [stripOut_cons_of_no_match _ _ hnp,
      ih (fun hi => h (List.infix_cons hi))]

/-- The pattern `.out` cannot start at the head of `c :: cs ++ .out`
unless it starts at the head of `c :: cs`: a window reaching into the
appended `.out` block would need two pattern occurrences to overlap,
which the characters of `.out` do not allow. -/
theorem not_prefix_outPat_append_pat (c : Char) (cs : List Char)
    (h : ¬ outPat <+: (c :: cs)) :
    ¬ outPat <+: (c :: (cs ++ outPat)) := by
  intro hpre
  match cs, hpre with
  | [], ⟨t, ht⟩ =>
    simp only [outPat, List.cons_append, List.nil_append, List.cons.injEq] at ht
    exact absurd ht.2.1 (by decide)
  | [d], ⟨t, ht⟩ =>
    simp only [outPat, List.cons_append, List.nil_append, List.singleton_append,
      List.cons.injEq] at ht
    exact absurd ht.2.2.1 (by decide)
  | [d, e], ⟨t, ht⟩ =>
    simp only [outPat, List.cons_append, List.nil_append, List.cons.injEq] at ht
    exact absurd ht.2.2.2.1 (by decide)
  | d :: e :: f :: cs', ⟨t, ht⟩ =>
    simp only [outPat, List.cons_append, List.nil_append, List.cons.injEq] at ht
    apply h
    refine ⟨cs', ?_⟩
    simp only [outPat, List.cons_append, List.nil_append, List.cons.injEq]
    exact ⟨ht.1, ht.2.1, ht.2.2.1, ht.2.2.2.1, trivial⟩

/-- When `.out` occurs nowhere inside `l`, `replace(".out", "")` applied
to `l ++ ".out"` removes exactly the final occurrence. -/
theorem stripOut_append_outPat (l : List Char) (h : ¬ outPat <:+: l) :
    stripOut (l ++ outPat) = l := by
  induction l using stripOut.induct with
  | case1 => rfl
  | case2 rest ih =>
    exact absurd ⟨[], rest, by simp [outPat]⟩ h
  | case3 c cs hne ih =>
    have hnp : ¬ outPat <+: (c :: cs) := fun hp => h hp.isInfix
    rw [List.cons_append,
      stripOut_cons_of_no_match _ _ (not_prefix_outPat_append_pat c cs hnp),
      ih (fun hi => h (List.infix_cons hi))]

/-! ## Filename round-trip lemmas -/

theorem fileName_data (g m : String) :
    (fileName g m).data = g.data ++ '-' :: (m.data ++ outPat) := by
  simp [fileName, String.data_append, outPat, List.append_assoc]

theorem outPath_data (g m : String) :
    (outPath g m).data
      = 'o' :: 'u' :: 't' :: '/' :: (g.data ++ '/' :: (fileName g m).data) := by
  simp [outPath, String.data_append, List.append_assoc]

/-- Line 46 recovers the genome identifier exactly when it contains no
`-`. -/
theorem parsedGenome_fileName (g m : String) (hg : '-' ∉ g.data) :
    parsedGenome (fileName g m) = Except.ok g := by
  unfold parsedGenome pySplitDash pyGet
  rw [fileName_data, splitCh_append '-' g.data _ hg]
  rfl

/-- Line 47 recovers the marker identifier exactly when both identifiers
contain no `-` and no occurrence of `.out`. -/
theorem parsedProt_fileName (g m : String)
    (hgd : '-' ∉ g.data) (hgo : ¬ outPat <:+: g.data)
    (hmd : '-' ∉ m.data) (hmo : ¬ outPat <:+: m.data) :
    parsedProt (fileName g m) = Except.ok m := by
  unfold parsedProt pySplitDash pyStripOut pyGet
  have hdata : stripOut (fileName g m).data = g.data ++ '-' :: m.data := by
    rw [fileName_data, stripOut_append_sep '-' (by decide),
      stripOut_of_no_occurrence _ hgo, stripOut_append_outPat _ hmo]
  rw [show (⟨stripOut (fileName g m).data⟩ : String).data
      = stripOut (fileName g m).data from rfl, hdata,
    splitCh_append '-' g.data _ hgd, splitCh_of_not_mem '-' m.data hmd]
  rfl

/-- The report path determines the marker, for a fixed genome. -/
theorem outPath_inj_right (g m m' : String) (h : outPath g m = outPath g m') :
    m = m' := by
  have hd := congrArg String.data h
  rw [outPath_data, outPath_data] at hd
  simp only [List.cons.injEq, true_and] at hd
  have h1 := List.append_cancel_left hd
  simp only [List.cons.injEq, true_and] at h1
  rw [fileName_data, fileName_data] at h1
  have h2 := List.append_cancel_left h1
  simp only [List.cons.injEq, true_and] at h2
  exact String.ext (List.append_cancel_right h2)

/-- The report path determines the (genome, marker) pair when the genome
identifiers contain no `/`. -/
theorem outPath_inj (g m g' m' : String)
    (hg : '/' ∉ g.data) (hg' : '/' ∉ g'.data)
    (h : outPath g m = outPath g' m') : g = g' ∧ m = m' := by
  have hd := congrArg String.data h
  rw [outPath_data, outPath_data] at hd
  simp only [List.cons.injEq, true_and] at hd
  have hsplit := congrArg (splitCh '/') hd
  rw [splitCh_append '/' g.data _ hg, splitCh_append '/' g'.data _ hg'] at hsplit
  have hgg : g = g' := String.ext (List.cons.inj hsplit).1
  subst hgg
  exact ⟨rfl, outPath_inj_right g m m' h⟩

/-! ## Content lookup on the orchestrated report tree -/

theorem findSome?_eq_none_iff {α β : Type} (f : α → Option β) (l : List α) :
    l.findSome? f = none ↔ ∀ a ∈ l, f a = none := by
  induction l with
  | nil => simp
  | cons a l ih =>
    rw [List.findSome?_cons]
    cases hfa : f a with
    | none => simp [hfa, ih]
    | some b => simp [hfa]

theorem orchContent_inner_hit (M : List String) (hits : String → String → Nat)
    (g m : String) (hm : m ∈ M) :
    (M.findSome? fun m0 =>
        if outPath g m = outPath g m0 then some (Report.ok (hits g m0)) else none)
      = some (Report.ok (hits g m)) := by
  induction M with
  | nil => cases hm
  | cons m0 M' ih =>
    rw [List.findSome?_cons]
    by_cases he : outPath g m = outPath g m0
    · have : m = m0 := outPath_inj_right g m m0 he
      subst this
      simp
    · have hm' : m ∈ M' := by
        cases List.mem_cons.mp hm with
        | inl h => exact absurd (h ▸ rfl) he
        | inr h => exact h
      simp only [if_neg he]
      exact ih hm'

/-- Looking up the path written for the pair `(g, m)` in the orchestrated
report tree yields the report for exactly that pair, provided genome
identifiers are `/`-free (so distinct pairs have distinct paths). -/
theorem orchContent_hit (G M : List String) (hits : String → String → Nat)
    (hGs : ∀ x ∈ G, '/' ∉ x.data) (g m : String) (hgG : g ∈ G) (hmM : m ∈ M) :
    orchContent G M hits (outPath g m) = some (Report.ok (hits g m)) := by
  induction G with
  | nil => cases hgG
  | cons g0 G' ih =>
    unfold orchContent
    rw [List.findSome?_cons]
    by_cases hg0 : g0 = g
    · subst hg0
      rw [orchContent_inner_hit M hits g0 m hmM]
    · have hnone : (M.findSome? fun m0 =>
          if outPath g m = outPath g0 m0 then some (Report.ok (hits g0 m0)) else none)
          = none := by
        rw [findSome?_eq_none_iff]
        intro m0 _
        rw [if_neg]
        intro he
        exact hg0 ((outPath_inj g m g0 m0
          (hGs g hgG) (hGs g0 (List.mem_cons_self g0 G')) he).1.symm)
      rw [hnone]
      have hg' : g ∈ G' := by
        cases List.mem_cons.mp hgG with
        | inl h => exact absurd h.symm hg0
        | inr h => exact h
      exact ih (fun x hx => hGs x (List.mem_cons_of_mem g0 hx)) hg'

/-! ## Dictionary and first-seen-order lemmas -/

theorem pyDictSet_of_not_key {β : Type} (d : List (String × β)) (k : String)
    (v : β) (h : ∀ p ∈ d, p.1 ≠ k) : pyDictSet d k v = d ++ [(k, v)] := by
  unfold pyDictSet
  rw [if_neg]
  simp only [List.any_eq_true, not_exists, not_and]
  intro p hp
  simp [h p hp]

theorem mem_pyDictSet {β : Type} (d : List (String × β)) (k : String) (v : β)
    (p : String × β) (hp : p ∈ pyDictSet d k v) : p ∈ d ∨ p = (k, v) := by
  unfold pyDictSet at hp
  split at hp
  · rcases List.mem_map.mp hp with ⟨q, hq, hqe⟩
    by_cases hqk : q.1 == k
    · right
      rw [if_pos hqk] at hqe
      exact hqe.symm
    · left
      rw [if_neg hqk] at hqe
      exact hqe ▸ hq
  · rcases List.mem_append.mp hp with h | h
    · exact Or.inl h
    · right
      simpa using h

theorem keys_pyDictSet {β : Type} (d : List (String × β)) (k : String) (v : β) :
    ∀ x, x ∈ (pyDictSet d k v).map Prod.fst ↔ x ∈ d.map Prod.fst ∨ x = k := by
  intro x
  unfold pyDictSet
  split
  · rename_i hany
    rcases List.any_eq_true.mp hany with ⟨q, hq, hqk⟩
    constructor
    · intro hx
      rcases List.mem_map.mp hx with ⟨p, hp, hpe⟩
      rcases List.mem_map.mp hp with ⟨q2, hq2, hq2e⟩
      by_cases hq2k : q2.1 == k
      · right
        rw [if_pos hq2k] at hq2e
        rw [← hpe, ← hq2e]
      · left
        rw [if_neg hq2k] at hq2e
        exact List.mem_map.mpr ⟨q2, hq2, hq2e ▸ hpe⟩
    · intro hx
      rcases hx with hx | hx
      · rcases List.mem_map.mp hx with ⟨p, hp, hpe⟩
        by_cases hpk : p.1 == k
        · subst hpe
          refine List.mem_map.mpr ⟨(p.1, v), List.mem_map.mpr ⟨p, hp, by rw [if_pos hpk]; simp [(eq_of_beq hpk).symm]⟩, rfl⟩
        · exact List.mem_map.mpr ⟨p, List.mem_map.mpr ⟨p, hp, by rw [if_neg hpk]⟩, hpe⟩
      · subst hx
        refine List.mem_map.mpr ⟨(x, v), List.mem_map.mpr ⟨q, hq, by rw [if_pos hqk]⟩, rfl⟩
  · simp

theorem pyDictFind?_eq_none {β : Type} (d : List (String × β)) (k : String)
    (h : ∀ p ∈ d, p.1 ≠ k) : pyDictFind? d k = none := by
  unfold pyDictFind?
  rw [List.find?_eq_none.mpr]
  · rfl
  · intro p hp
    simp [h p hp]

theorem mem_insertNew (l : List String) (x y : String) :
    y ∈ insertNew l x ↔ y ∈ l ∨ y = x := by
  unfold insertNew
  split
  · rename_i hc
    constructor
    · exact Or.inl
    · rintro (h | rfl)
      · exact h
      · exact List.elem_iff.mp hc
  · simp

theorem insertNew_of_mem (l : List String) (x : String) (h : x ∈ l) :
    insertNew l x = l := by
  unfold insertNew
  rw [if_pos (List.elem_iff.mpr h)]

theorem nodup_insertNew (l : List String) (x : String) (h : l.Nodup) :
    (insertNew l x).Nodup := by
  unfold insertNew
  split
  · exact h
  · rename_i hc
    have hx : x ∉ l := fun hm => hc (List.elem_iff.mpr hm)
    simpa [List.nodup_append, hx] using h

theorem mem_foldl_insertNew (L : List String) (acc : List String) (x : String) :
    x ∈ L.foldl insertNew acc ↔ x ∈ acc ∨ x ∈ L := by
  induction L generalizing acc with
  | nil => simp
  | cons y L ih =>
    rw [List.foldl_cons, ih, mem_insertNew]
    constructor
    · rintro ((h | rfl) | h)
      · exact Or.inl h
      · exact Or.inr (List.mem_cons_self x L)
      · exact Or.inr (List.mem_cons_of_mem y h)
    · rintro (h | h)
      · exact Or.inl (Or.inl h)
      · rcases List.mem_cons.mp h with rfl | h
        · exact Or.inl (Or.inr rfl)
        · exact Or.inr h

theorem nodup_foldl_insertNew (L : List String) (acc : List String)
    (h : acc.Nodup) : (L.foldl insertNew acc).Nodup := by
  induction L generalizing acc with
  | nil => exact h
  | cons y L ih => exact ih _ (nodup_insertNew acc y h)

theorem exceptMapOk {α β : Type} (f : α → β) (x : α) :
    (Except.ok x : Except String α).map f = Except.ok (f x) := rfl

theorem exceptOkBind {α β : Type} (x : α) (f : α → Except String β) :
    (Except.ok x : Except String α) >>= f = f x := rfl

theorem processFileStep_orch (G M : List String) (hits : String → String → Nat)
    (g m : String) (hGM : goodIds G M) (hgG : g ∈ G) (hmM : m ∈ M)
    (st : Dict × List String) :
    processFileStep (orchContent G M hits) st (fileName g m)
      = Except.ok (if hits g m = 0 then st
          else (pyDictSet st.1 m (hits g m), insertNew st.2 g)) := by
  have hg : goodId g := hGM.1 g hgG
  have hm : goodId m := hGM.2 m hmM
  simp only [processFileStep, parsedGenome_fileName g m hg.1,
    parsedProt_fileName g m hg.1 hg.2.2 hm.1 hm.2.2]
  rw [show ("out/" ++ g ++ "/" ++ fileName g m : String) = outPath g m from rfl,
    orchContent_hit G M hits (fun x hx => (hGM.1 x hx).2.1) g m hgG hmM]
  cases hz : hits g m with
  | zero => rfl
  | succ n => rfl

theorem processDir_orch_go (G M : List String) (hits : String → String → Nat)
    (g : String) (hGM : goodIds G M) (hgG : g ∈ G)
    (L : List String) (hL : ∀ m ∈ L, m ∈ M) (st : Dict × List String) :
    (L.map (fileName g)).foldlM (processFileStep (orchContent G M hits)) st
      = Except.ok (L.foldl
          (fun st m => if hits g m = 0 then st
            else (pyDictSet st.1 m (hits g m), insertNew st.2 g)) st) := by
  induction L generalizing st with
  | nil => rfl
  | cons m L' ih =>
    rw [List.map_cons, List.foldlM_cons,
      processFileStep_orch G M hits g m hGM hgG (hL m (List.mem_cons_self m L')) st]
    rw [exceptOkBind]
    exact ih (fun x hx => hL x (List.mem_cons_of_mem m hx)) _

/-- The pair-state fold of one directory splits into the dict fold and the
assigned-keys computation: the keys component records `g` exactly when
some marker had a nonzero count. -/
theorem foldl_pair_split (M : List String) (hits : String → String → Nat)
    (g : String) (st : Dict × List String) :
    M.foldl
        (fun st m => if hits g m = 0 then st
          else (pyDictSet st.1 m (hits g m), insertNew st.2 g)) st
      = (M.foldl
          (fun gd m => if hits g m = 0 then gd else pyDictSet gd m (hits g m))
          st.1,
         if hasHit M hits g then insertNew st.2 g else st.2) := by
  induction M generalizing st with
  | nil => simp [hasHit]
  | cons m M' ih =>
    by_cases hz : hits g m = 0
    · rw [List.foldl_cons, if_pos hz, ih st, List.foldl_cons, if_pos hz]
      have : hasHit (m :: M') hits g = hasHit M' hits g := by
        simp [hasHit, hz]
      rw [this]
    · rw [List.foldl_cons, if_neg hz,
        ih (pyDictSet st.1 m (hits g m), insertNew st.2 g), List.foldl_cons,
        if_neg hz]
      have hh : hasHit (m :: M') hits g = true := by
        simp [hasHit, List.any_cons]
        exact Or.inl hz
      rw [hh, if_pos rfl]
      congr 1
      by_cases hh' : hasHit M' hits g
      · rw [if_pos hh',
          insertNew_of_mem _ g ((mem_insertNew st.2 g g).mpr (Or.inr rfl))]
      · rw [if_neg hh']

theorem processDir_orch (G M : List String) (hits : String → String → Nat)
    (g : String) (hGM : goodIds G M) (hgG : g ∈ G) :
    processDir (orchContent G M hits) (M.map (fileName g))
      = Except.ok (gdOf M hits g, if hasHit M hits g then [g] else []) := by
  unfold processDir
  rw [processDir_orch_go G M hits g hGM hgG M (fun _ h => h) ([], []),
    foldl_pair_split]
  rfl

/-- Parsing the orchestrated report tree of a run on well-formed
identifiers produces exactly the identifier-level aggregation. -/
theorem parseAll_orchFS (G M : List String) (hits : String → String → Nat)
    (hGM : goodIds G M) :
    parseAll (orchFS G M hits) = Except.ok (idAgg G M hits) := by
  unfold parseAll orchFS idAgg
  suffices h : ∀ (L : List String), (∀ x ∈ L, x ∈ G) → ∀ (ad : AllDicts),
      (L.map (fun g => (g, M.map (fileName g)))).foldlM
          (fun ad d =>
            (processDir (orchContent G M hits) d.2).map
              (fun r => r.2.foldl (fun ad k => pyDictSet ad k r.1) ad))
          ad
        = Except.ok (L.foldl
            (fun ad g =>
              if hasHit M hits g then pyDictSet ad g (gdOf M hits g) else ad)
            ad) by
    exact h G (fun _ hx => hx) []
  intro L hL
  induction L with
  | nil => intro ad; rfl
  | cons g L' ih =>
    intro ad
    rw [List.map_cons, List.foldlM_cons,
      processDir_orch G M hits g hGM (hL g (List.mem_cons_self g L')),
      exceptMapOk, exceptOkBind, List.foldl_cons]
    by_cases hh : hasHit M hits g
    · rw [if_pos hh, if_pos hh]
      simp only [List.foldl_cons, List.foldl_nil]
      exact ih (fun x hx => hL x (List.mem_cons_of_mem g hx)) _
    · rw [if_neg hh, if_neg hh]
      simp only [List.foldl_nil]
      exact ih (fun x hx => hL x (List.mem_cons_of_mem g hx)) _

/-! ## Explicit shape of the aggregation for duplicate-free inputs -/

theorem foldl_pyDictSet_filter {β : Type} (L : List String) (q : String → Bool)
    (v : String → β) (init : List (String × β)) (hnd : L.Nodup)
    (hfresh : ∀ x ∈ L, ∀ p ∈ init, p.1 ≠ x) :
    L.foldl (fun d x => if q x then pyDictSet d x (v x) else d) init
      = init ++ (L.filter q).map (fun x => (x, v x)) := by
  induction L generalizing init with
  | nil => simp
  | cons x L' ih =>
    rw [List.foldl_cons]
    by_cases hq : q x
    · rw [if_pos hq,
        pyDictSet_of_not_key init x (v x) (fun p hp => hfresh x (List.mem_cons_self x L') p hp)]
      rw [ih (init ++ [(x, v x)]) (List.nodup_cons.mp hnd).2]
      · rw [List.filter_cons_of_pos hq, List.map_cons, List.append_assoc]
        rfl
      · intro y hy p hp
        rcases List.mem_append.mp hp with hp | hp
        · exact hfresh y (List.mem_cons_of_mem x hy) p hp
        · have : p = (x, v x) := by simpa using hp
          rw [this]
          intro he
          have hxy : x = y := he
          exact (List.nodup_cons.mp hnd).1 (hxy ▸ hy)
    · rw [if_neg hq, List.filter_cons_of_neg hq]
      exact ih init (List.nodup_cons.mp hnd).2
        (fun y hy => hfresh y (List.mem_cons_of_mem x hy))

/-- For a duplicate-free marker list the final `genome_dict` of `g` lists
the markers with a nonzero count, in marker order, with their counts. -/
theorem gdOf_eq (M : List String) (hits : String → String → Nat) (g : String)
    (hnd : M.Nodup) :
    gdOf M hits g
      = (M.filter (fun m => hits g m != 0)).map (fun m => (m, hits g m)) := by
  unfold gdOf
  rw [List.foldl_ext
    (fun gd m => if hits g m = 0 then gd else pyDictSet gd m (hits g m))
    (fun gd m => if (hits g m != 0) then pyDictSet gd m (hits g m) else gd)
    []
    (by
      intro d m _
      by_cases hz : hits g m = 0
      · simp [hz]
      · simp [hz])]
  exact foldl_pyDictSet_filter M (fun m => hits g m != 0) (fun m => hits g m) []
    hnd (by simp)

/-- For a duplicate-free genome list the final `all_dicts` lists the
genomes with at least one hit, in walk order, with their final dicts. -/
theorem idAgg_eq (G M : List String) (hits : String → String → Nat)
    (hnd : G.Nodup) :
    idAgg G M hits
      = (G.filter (hasHit M hits)).map (fun g => (g, gdOf M hits g)) := by
  unfold idAgg
  exact foldl_pyDictSet_filter G (hasHit M hits) (gdOf M hits) [] hnd (by simp)

/-! ## Lemmas about the assembled matrix -/

theorem mem_dfColumns (ad : AllDicts) (c : String) :
    c ∈ dfColumns ad ↔ ∃ r ∈ ad, ∃ kv ∈ r.2, kv.1 = c := by
  unfold dfColumns
  suffices h : ∀ (acc : List String),
      c ∈ ad.foldl (fun acc r => r.2.foldl (fun acc kv => insertNew acc kv.1) acc) acc
        ↔ c ∈ acc ∨ ∃ r ∈ ad, ∃ kv ∈ r.2, kv.1 = c by
    rw [h []]
    simp
  intro acc
  induction ad generalizing acc with
  | nil => simp
  | cons r ad ih =>
    rw [List.foldl_cons, ih]
    have hinner : ∀ (acc2 : List String),
        c ∈ r.2.foldl (fun acc kv => insertNew acc kv.1) acc2
          ↔ c ∈ acc2 ∨ ∃ kv ∈ r.2, kv.1 = c := by
      intro acc2
      have := mem_foldl_insertNew (r.2.map Prod.fst) acc2 c
      rw [List.foldl_map] at this
      rw [this]
      simp
    rw [hinner]
    constructor
    · rintro ((h | h) | h)
      · exact Or.inl h
      · exact Or.inr ⟨r, List.mem_cons_self r ad, h⟩
      · rcases h with ⟨r2, hr2, hkv⟩
        exact Or.inr ⟨r2, List.mem_cons_of_mem r hr2, hkv⟩
    · rintro (h | ⟨r2, hr2, hkv⟩)
      · exact Or.inl (Or.inl h)
      · rcases List.mem_cons.mp hr2 with rfl | hr2
        · exact Or.inl (Or.inr hkv)
        · exact Or.inr ⟨r2, hr2, hkv⟩

theorem nodup_dfColumns (ad : AllDicts) : (dfColumns ad).Nodup := by
  unfold dfColumns
  suffices h : ∀ (acc : List String), acc.Nodup →
      (ad.foldl (fun acc r => r.2.foldl (fun acc kv => insertNew acc kv.1) acc) acc).Nodup by
    exact h [] List.nodup_nil
  intro acc hacc
  induction ad generalizing acc with
  | nil => exact hacc
  | cons r ad ih =>
    rw [List.foldl_cons]
    apply ih
    have := nodup_foldl_insertNew (r.2.map Prod.fst) acc hacc
    rw [List.foldl_map] at this
    exact this

theorem rowLookup_map (cols : List String) (f : String → Nat) (c : String)
    (hc : c ∈ cols) : rowLookup cols (cols.map f) c = some (f c) := by
  induction cols with
  | nil => cases hc
  | cons c0 cols ih =>
    rw [List.map_cons]
    by_cases he : c0 = c
    · subst he
      simp [rowLookup]
    · rw [show rowLookup (c0 :: cols) (f c0 :: cols.map f) c
          = if c0 == c then some (f c0) else rowLookup cols (cols.map f) c from rfl,
        if_neg (by simpa using he)]
      rcases List.mem_cons.mp hc with rfl | hc
      · exact absurd rfl he
      · exact ih hc

theorem find?_pair_map_of_mem {β : Type} (L : List String) (f : String → β)
    (g : String) (hg : g ∈ L) :
    ((L.map (fun x => (x, f x))).find? (fun r => r.1 == g)) = some (g, f g) := by
  induction L with
  | nil => cases hg
  | cons x L' ih =>
    rw [List.map_cons, List.find?_cons]
    by_cases he : x = g
    · subst he
      simp
    · have hb : ((x, f x).1 == g) = false := by simpa using he
      rw [hb]
      rcases List.mem_cons.mp hg with rfl | hg
      · exact absurd rfl he
      · exact ih hg

theorem find?_pair_map_of_not_mem {β : Type} (L : List String) (f : String → β)
    (g : String) (hg : g ∉ L) :
    ((L.map (fun x => (x, f x))).find? (fun r => r.1 == g)) = none := by
  rw [List.find?_eq_none]
  intro p hp
  rcases List.mem_map.mp hp with ⟨x, hx, rfl⟩
  simp only [beq_iff_eq]
  intro he
  exact hg (he ▸ hx)

theorem pyDictFind?_filter_map {β : Type} (L : List String) (q : String → Bool)
    (f : String → β) (c : String) (hc : c ∈ L) (hnd : L.Nodup) :
    pyDictFind? ((L.filter q).map (fun x => (x, f x))) c
      = if q c then some (f c) else none := by
  induction L with
  | nil => cases hc
  | cons x L' ih =>
    by_cases he : x = c
    · subst he
      by_cases hq : q x
      · rw [List.filter_cons_of_pos hq, if_pos hq, List.map_cons]
        unfold pyDictFind?
        rw [List.find?_cons]
        simp
      · rw [List.filter_cons_of_neg hq, if_neg hq]
        apply pyDictFind?_eq_none
        intro p hp
        rcases List.mem_map.mp hp with ⟨y, hy, rfl⟩
        have hyL : y ∈ L' := List.mem_of_mem_filter hy
        intro hyx
        exact (List.nodup_cons.mp hnd).1 (hyx ▸ hyL)
    · have hc' : c ∈ L' := by
        rcases List.mem_cons.mp hc with rfl | hc'
        · exact absurd rfl he
        · exact hc'
      by_cases hq : q x
      · rw [List.filter_cons_of_pos hq, List.map_cons]
        unfold pyDictFind?
        rw [List.find?_cons]
        have hb : ((x, f x).1 == c) = false := by simpa using he
        rw [hb]
        exact ih hc' (List.nodup_cons.mp hnd).2
      · rw [List.filter_cons_of_neg hq]
        exact ih hc' (List.nodup_cons.mp hnd).2

/-! ## All recorded hit counts are at least 1

The parsing loop only writes `genome_dict[prot] = num_hits` when a query
result exists, and a query result in a `hmmer3-tab` report groups at least
one hit row; so every count stored anywhere in `all_dicts` is positive,
for any filesystem whose parsing completes. -/

theorem parseQResults_pos (rep : Report) (qrs : List Nat)
    (h : parseQResults rep = Except.ok qrs) : ∀ n ∈ qrs, 1 ≤ n := by
  match rep, h with
  | Report.ok 0, h =>
    have : qrs = [] := by simpa [parseQResults] using h.symm
    simp [this]
  | Report.ok (k+1), h =>
    have : qrs = [k+1] := by simpa [parseQResults] using h.symm
    simp [this]

theorem dictPos_pyDictSet (d : Dict) (k : String) (v : Nat)
    (hd : dictPos d) (hv : 1 ≤ v) : dictPos (pyDictSet d k v) := by
  intro kv hkv
  rcases mem_pyDictSet d k v kv hkv with h | rfl
  · exact hd kv h
  · exact hv

theorem foldl_set_pos (prot genome : String) (qrs : List Nat)
    (hqs : ∀ n ∈ qrs, 1 ≤ n) :
    ∀ (st : Dict × List String), dictPos st.1 →
      dictPos (qrs.foldl
        (fun st n => (pyDictSet st.1 prot n, insertNew st.2 genome)) st).1 := by
  induction qrs with
  | nil => intro st hst; exact hst
  | cons n qrs ih =>
    intro st hst
    rw [List.foldl_cons]
    exact ih (fun x hx => hqs x (List.mem_cons_of_mem n hx)) _
      (dictPos_pyDictSet st.1 prot n hst (hqs n (List.mem_cons_self n qrs)))

theorem processFileStep_pos (content : String → Option Report)
    (st st2 : Dict × List String) (file : String)
    (h : processFileStep content st file = Except.ok st2)
    (hst : dictPos st.1) : dictPos st2.1 := by
  unfold processFileStep at h
  cases hpg : parsedGenome file with
  | error e => rw [hpg] at h; exact Except.noConfusion h
  | ok genome =>
    rw [hpg] at h
    dsimp only at h
    cases hpp : parsedProt file with
    | error e => rw [hpp] at h; exact Except.noConfusion h
    | ok prot =>
      rw [hpp] at h
      dsimp only at h
      cases hct : content ("out/" ++ genome ++ "/" ++ file) with
      | none => rw [hct] at h; exact Except.noConfusion h
      | some rep =>
        rw [hct] at h
        dsimp only at h
        cases hq : parseQResults rep with
        | error e => rw [hq] at h; exact Except.noConfusion h
        | ok qrs =>
          rw [hq] at h
          dsimp only at h
          injection h with h2
          subst h2
          exact foldl_set_pos prot genome qrs (parseQResults_pos rep qrs hq) st hst

theorem foldlM_except_inv {σ α : Type} (f : σ → α → Except String σ)
    (P : σ → Prop) (L : List α) (out : σ) :
    ∀ (init : σ),
      (∀ s a s2, a ∈ L → f s a = Except.ok s2 → P s → P s2) →
      P init → L.foldlM f init = Except.ok out → P out := by
  induction L with
  | nil =>
    intro init _ h0 h
    rw [List.foldlM_nil] at h
    injection h with h2
    exact h2 ▸ h0
  | cons a L' ih =>
    intro init hstep h0 h
    rw [List.foldlM_cons] at h
    cases hfa : f init a with
    | error e =>
      rw [hfa] at h
      exact Except.noConfusion h
    | ok s1 =>
      rw [hfa, exceptOkBind] at h
      exact ih s1 (fun s b s2 hb => hstep s b s2 (List.mem_cons_of_mem a hb))
        (hstep init a s1 (List.mem_cons_self a L') hfa h0) h

theorem processDir_pos (content : String → Option Report) (files : List String)
    (gd : Dict) (ks : List String)
    (h : processDir content files = Except.ok (gd, ks)) : dictPos gd := by
  exact foldlM_except_inv (processFileStep content) (fun st => dictPos st.1)
    files (gd, ks) ([], [])
    (fun s a s2 _ hstep hP => processFileStep_pos content s s2 a hstep hP)
    (by intro kv hkv; cases hkv) h

theorem parseAll_pos (fs : FS) (ad : AllDicts)
    (h : parseAll fs = Except.ok ad) : allDictsPos ad := by
  unfold parseAll at h
  apply foldlM_except_inv _ allDictsPos fs.dirs ad [] _ (by intro r hr; cases hr) h
  intro s d s2 _ hstep hP
  cases hpd : processDir fs.content d.2 with
  | error e =>
    rw [hpd] at hstep
    cases hstep
  | ok r =>
    rw [hpd, exceptMapOk] at hstep
    injection hstep with h2
    subst h2
    have hgd : dictPos r.1 := processDir_pos fs.content d.2 r.1 r.2 hpd
    clear hpd
    induction r.2 generalizing s with
    | nil => exact hP
    | cons k ks ih =>
      rw [List.foldl_cons]
      apply ih
      intro row hrow
      rcases mem_pyDictSet s k r.1 row hrow with hrm | rfl
      · exact hP row hrm
      · exact hgd

/-! ## Congruence: the pipeline is a function of the enumeration orders
and the per-pair search results -/

theorem findSome?_congr {α β : Type} (f1 f2 : α → Option β) (L : List α)
    (h : ∀ a ∈ L, f1 a = f2 a) : L.findSome? f1 = L.findSome? f2 := by
  induction L with
  | nil => rfl
  | cons a L' ih =>
    rw [List.findSome?_cons, List.findSome?_cons,
      h a (List.mem_cons_self a L'), ih (fun x hx => h x (List.mem_cons_of_mem a hx))]

theorem orchContent_ext (G M : List String) (h1 h2 : String → String → Nat)
    (hh : ∀ g ∈ G, ∀ m ∈ M, h1 g m = h2 g m) (p : String) :
    orchContent G M h1 p = orchContent G M h2 p := by
  unfold orchContent
  apply findSome?_congr
  intro g hg
  apply findSome?_congr
  intro m hm
  rw [hh g hg m hm]

theorem processFileStep_content_ext (c1 c2 : String → Option Report)
    (hc : ∀ p, c1 p = c2 p) (st : Dict × List String) (file : String) :
    processFileStep c1 st file = processFileStep c2 st file := by
  simp only [processFileStep, hc]

theorem foldlM_except_congr {σ α : Type} (f1 f2 : σ → α → Except String σ)
    (L : List α) (init : σ) (h : ∀ s, ∀ a ∈ L, f1 s a = f2 s a) :
    L.foldlM f1 init = L.foldlM f2 init := by
  induction L generalizing init with
  | nil => rfl
  | cons a L' ih =>
    rw [List.foldlM_cons, List.foldlM_cons, h init a (List.mem_cons_self a L')]
    cases f2 init a with
    | error e => rfl
    | ok s1 =>
      rw [exceptOkBind, exceptOkBind]
      exact ih s1 (fun s b hb => h s b (List.mem_cons_of_mem a hb))

theorem parseAll_content_ext (dirs : List (String × List String))
    (c1 c2 : String → Option Report) (hc : ∀ p, c1 p = c2 p) :
    parseAll ⟨dirs, c1⟩ = parseAll ⟨dirs, c2⟩ := by
  unfold parseAll
  apply foldlM_except_congr
  intro ad d _
  unfold processDir
  rw [foldlM_except_congr (processFileStep c1) (processFileStep c2) d.2 ([], [])
    (fun st f _ => processFileStep_content_ext c1 c2 hc st f)]

/-! ## Helper lemmas for the claim theorems -/

/-- A full run on well-formed identifiers succeeds and produces the
matrix assembled from the identifier-level aggregation. -/
theorem runPipeline_orch (G M : List String) (hits : String → String → Nat)
    (hGM : goodIds G M) :
    runPipeline G M hits = Except.ok (assemble (idAgg G M hits) M) := by
  unfold runPipeline
  rw [parseAll_orchFS G M hits hGM, exceptMapOk]

theorem mem_allCols (ex : List String) (M : List String) (c : String)
    (hc : c ∈ M) : c ∈ M.filter (fun p => !ex.contains p) ++ ex := by
  by_cases he : c ∈ ex
  · exact List.mem_append.mpr (Or.inr he)
  · apply List.mem_append.mpr
    left
    apply List.mem_filter.mpr
    refine ⟨hc, ?_⟩
    simp only [Bool.not_eq_true']
    exact Bool.eq_false_iff.mpr (fun hcon => he (List.elem_iff.mp hcon))

/-- Column count of the assembled order: the markers not yet observed
plus the observed ones are exactly as many as the input markers, when the
observed ones all come from a duplicate-free input list. -/
theorem length_absent_add_existing (ex M : List String) (hMn : M.Nodup)
    (hexn : ex.Nodup) (hsub : ∀ c ∈ ex, c ∈ M) :
    (M.filter (fun p => !ex.contains p)).length + ex.length = M.length := by
  have hperm : (M.filter (fun p => ex.contains p)).Perm ex := by
    rw [List.perm_ext_iff_of_nodup (List.Nodup.filter _ hMn) hexn]
    intro c
    constructor
    · intro hcf
      exact List.elem_iff.mp (List.mem_filter.mp hcf).2
    · intro hce
      exact List.mem_filter.mpr ⟨hsub c hce, List.elem_iff.mpr hce⟩
  have hlen : ex.length = (M.filter (fun p => ex.contains p)).length :=
    hperm.length_eq.symm
  rw [hlen]
  have hsplit := (List.filter_append_perm (fun p => !ex.contains p) M).length_eq
  rw [List.length_append] at hsplit
  have hnn : M.filter (fun p => !(!ex.contains p)) = M.filter (fun p => ex.contains p) := by
    apply List.filter_congr
    intro x _
    rw [Bool.not_not]
  rw [hnn] at hsplit
  exact hsplit

/-- Membership in the observed columns of the identifier-level
aggregation: exactly the input markers with a hit in some surviving
genome. -/
theorem mem_dfColumns_idAgg (G M : List String) (hits : String → String → Nat)
    (hGn : G.Nodup) (hMn : M.Nodup) (c : String) :
    c ∈ dfColumns (idAgg G M hits)
      ↔ ∃ g ∈ G, hasHit M hits g ∧ c ∈ M ∧ hits g c ≠ 0 := by
  rw [mem_dfColumns, idAgg_eq G M hits hGn]
  constructor
  · rintro ⟨r, hr, kv, hkv, hkvc⟩
    rcases List.mem_map.mp hr with ⟨g, hg, rfl⟩
    rw [gdOf_eq M hits g hMn] at hkv
    rcases List.mem_map.mp hkv with ⟨m, hm, rfl⟩
    have hmM : m ∈ M := List.mem_of_mem_filter hm
    have hmnz : (hits g m != 0) = true := (List.mem_filter.mp hm).2
    have hmc : m = c := hkvc
    subst hmc
    refine ⟨g, List.mem_of_mem_filter hg, (List.mem_filter.mp hg).2, hmM, ?_⟩
    simpa using hmnz
  · rintro ⟨g, hgG, hgh, hcM, hcz⟩
    refine ⟨(g, gdOf M hits g),
      List.mem_map.mpr ⟨g, List.mem_filter.mpr ⟨hgG, hgh⟩, rfl⟩, (c, hits g c), ?_, rfl⟩
    rw [gdOf_eq M hits g hMn]
    exact List.mem_map.mpr ⟨c, List.mem_filter.mpr ⟨hcM, by simpa using hcz⟩, rfl⟩

theorem dfColumns_idAgg_sub (G M : List String) (hits : String → String → Nat)
    (hGn : G.Nodup) (hMn : M.Nodup) :
    ∀ c ∈ dfColumns (idAgg G M hits), c ∈ M := by
  intro c hc
  exact ((mem_dfColumns_idAgg G M hits hGn hMn c).mp hc).choose_spec.2.2.1

/-- The rows of the assembled matrix of the identifier-level aggregation,
as a map over the surviving genomes. -/
theorem assemble_idAgg_rows (G M : List String) (hits : String → String → Nat)
    (hGn : G.Nodup) :
    (assemble (idAgg G M hits) M).rows
      = (G.filter (hasHit M hits)).map
          (fun g => (g, (assemble (idAgg G M hits) M).cols.map
            (fun c => (pyDictFind? (gdOf M hits g) c).getD 0))) := by
  conv_lhs => rw [show (assemble (idAgg G M hits) M).rows
    = (idAgg G M hits).map (fun r =>
        (r.1, (assemble (idAgg G M hits) M).cols.map
          (fun c => (pyDictFind? r.2 c).getD 0))) from rfl]
  rw [idAgg_eq G M hits hGn, List.map_map]
  rfl

theorem pyDictFind?_pair_map_of_mem {β : Type} (L : List String)
    (f : String → β) (g : String) (hg : g ∈ L) :
    pyDictFind? (L.map (fun x => (x, f x))) g = some (f g) := by
  unfold pyDictFind?
  rw [find?_pair_map_of_mem L f g hg]
  rfl

theorem pyDictFind?_pair_map_of_not_mem {β : Type} (L : List String)
    (f : String → β) (g : String) (hg : g ∉ L) :
    pyDictFind? (L.map (fun x => (x, f x))) g = none := by
  unfold pyDictFind?
  rw [find?_pair_map_of_not_mem L f g hg]
  rfl

theorem parseAll_orchFS_nil_markers (G : List String)
    (hits : String → String → Nat) :
    parseAll (orchFS G [] hits) = Except.ok [] := by
  unfold parseAll orchFS
  suffices h : ∀ (ad : AllDicts),
      ((G.map (fun g => (g, ([] : List String).map (fun m => fileName g m)))).foldlM
        (fun ad d =>
          (processDir (orchContent G [] hits) d.2).map
            (fun r => r.2.foldl (fun ad k => pyDictSet ad k r.1) ad))
        ad) = Except.ok ad by
    exact h []
  intro ad
  induction G generalizing ad with
  | nil => rfl
  | cons g G' ih =>
    rw [List.map_cons, List.foldlM_cons]
    exact ih ad

/-! ## Claim theorems -/

/-- C4 (code bug): the spec requires a malformed report to be surfaced
for its own (genome, marker) pair only, with the run continuing and every
other pair's result still in the final matrix. The parsing loop (lines
43-54) has no exception handling: on the report tree `badFS`, where only
the report of pair ("A", "m1") is malformed, the whole parsing phase
raises and no matrix is produced, although the same tree with that one
report repaired (`goodFS`) parses completely and contains pair
("B", "m1")'s count. -/
theorem claim_C4_code_bug :
    parseAll badFS = Except.error "ParseError"
      ∧ parseAll goodFS = Except.ok [("A", [("m1", 1)]), ("B", [("m1", 2)])] :=
  ⟨rfl, rfl⟩

/-- C5 (counterexample): the claim says a searched pair with zero hits is
present in the aggregated facts with count 0. On genomes {A} and markers
{m1, m2} with one hit for m1 and none for m2, the aggregation holds no
entry at all for m2: its per-genome dict has no "m2" key. -/
theorem claim_C5_counterexample :
    parseAll (orchFS ["A"] ["m1", "m2"] (fun _ m => if m = "m1" then 1 else 0))
        = Except.ok [("A", [("m1", 1)])]
      ∧ pyDictFind? [("m1", (1 : Nat))] "m2" = none :=
  ⟨rfl, rfl⟩

/-- C5 (amended): for a completed run on well-formed, duplicate-free
identifiers, the aggregated facts hold an entry for a searched pair
exactly when its hit count is nonzero, and then the entry is that count;
zero-hit pairs are absent (the matrix-fill step later writes 0 for them,
for genomes that appear at all). -/
theorem claim_C5_amended (G M : List String) (hits : String → String → Nat)
    (hGM : goodIds G M) (hGn : G.Nodup) (hMn : M.Nodup) :
    ∃ ad, parseAll (orchFS G M hits) = Except.ok ad
      ∧ ∀ g ∈ G, ∀ m ∈ M,
          pyDictFind? ((pyDictFind? ad g).getD []) m
            = if hits g m = 0 then none else some (hits g m) := by
  refine ⟨idAgg G M hits, parseAll_orchFS G M hits hGM, ?_⟩
  intro g hgG m hmM
  rw [idAgg_eq G M hits hGn]
  by_cases hh : hasHit M hits g
  · rw [pyDictFind?_pair_map_of_mem _ _ g (List.mem_filter.mpr ⟨hgG, hh⟩)]
    rw [Option.getD_some, gdOf_eq M hits g hMn,
      pyDictFind?_filter_map M _ _ m hmM hMn]
    by_cases hz : hits g m = 0
    · simp [hz]
    · simp [hz]
  · rw [pyDictFind?_pair_map_of_not_mem _ _ g
      (fun hmem => hh (List.mem_filter.mp hmem).2)]
    have hz : hits g m = 0 := by
      by_contra hnz
      exact hh (List.any_eq_true.mpr ⟨m, hmM, by simpa using hnz⟩)
    rw [if_pos hz]
    rfl

/-- C7 (counterexample): the claim asserts identical output for any two
runs on the same genome and marker sets with the same per-pair results.
The two genome enumeration orders ["A", "B"] and ["B", "A"] list the same
set, yet with identical per-pair results (one hit everywhere) the two
runs produce different matrices: the row order differs. -/
theorem claim_C7_counterexample :
    (["A", "B"] : List String).Perm ["B", "A"]
      ∧ runPipeline ["A", "B"] ["m"] (fun _ _ => 1)
          ≠ runPipeline ["B", "A"] ["m"] (fun _ _ => 1) := by
  refine ⟨by decide, ?_⟩
  intro h
  have h1 : runPipeline ["A", "B"] ["m"] (fun _ _ => 1)
      = Except.ok ⟨["m"], [("A", [1]), ("B", [1])]⟩ := rfl
  have h2 : runPipeline ["B", "A"] ["m"] (fun _ _ => 1)
      = Except.ok ⟨["m"], [("B", [1]), ("A", [1])]⟩ := rfl
  rw [h1, h2] at h
  injection h with h3
  have hne : (⟨["m"], [("A", [1]), ("B", [1])]⟩ : DF)
      ≠ ⟨["m"], [("B", [1]), ("A", [1])]⟩ := by decide
  exact hne h3

/-- C7 (amended): the pipeline output is a function of the genome
enumeration order, the marker enumeration order and the per-pair search
results: two runs with the same enumeration orders whose search results
agree on every searched pair produce identical matrices. -/
theorem claim_C7_amended (G M : List String) (h1 h2 : String → String → Nat)
    (hh : ∀ g ∈ G, ∀ m ∈ M, h1 g m = h2 g m) :
    runPipeline G M h1 = runPipeline G M h2 := by
  unfold runPipeline
  have hpa : parseAll (orchFS G M h1) = parseAll (orchFS G M h2) :=
    parseAll_content_ext (G.map (fun g => (g, M.map (fun m => fileName g m))))
      (orchContent G M h1) (orchContent G M h2)
      (orchContent_ext G M h1 h2 hh)
  rw [hpa]

/-- C7 (witness): two distinct search-result functions that agree on the
single searched pair give identical output. -/
theorem claim_C7_witness :
    runPipeline ["A"] ["m"] (fun _ _ => 1)
      = runPipeline ["A"] ["m"] (fun g _ => if g = "Z" then 5 else 1) :=
  claim_C7_amended ["A"] ["m"] (fun _ _ => 1) (fun g _ => if g = "Z" then 5 else 1)
    (by decide)

/-- C8 (confirmed): the Matrix Assembler (DataFrame construction through
`to_csv`) is a pure function of the aggregated facts and the marker
universe: two applications to equal inputs produce byte-identical output
files. -/
theorem claim_C8 (ad1 ad2 : AllDicts) (M1 M2 : List String)
    (h1 : ad1 = ad2) (h2 : M1 = M2) :
    (dfToCsv (assemble ad1 M1)).data = (dfToCsv (assemble ad2 M2)).data := by
  subst h1
  subst h2
  rfl

/-- C8 (witness): concrete application of the assembler determinism. -/
theorem claim_C8_witness :
    (dfToCsv (assemble [("A", [("m1", 2)])] ["m1", "m2"])).data
      = (dfToCsv (assemble [("A", [("m1", 2)])] ["m1", "m2"])).data :=
  claim_C8 [("A", [("m1", 2)])] [("A", [("m1", 2)])] ["m1", "m2"] ["m1", "m2"]
    rfl rfl

/-- C9 (counterexample): the claim says a non-empty genome set with an
empty marker set yields one row per genome. With genome set {A} and no
markers, no report ever yields a query result, `all_dicts` stays empty,
and the written matrix has zero rows, not one. -/
theorem claim_C9_counterexample :
    runPipeline ["A"] [] (fun _ _ => 3) = Except.ok ⟨[], []⟩
      ∧ ([] : List (String × List Nat)).length ≠ (["A"] : List String).length :=
  ⟨rfl, by decide⟩

/-- C9 (amended): an empty marker set yields a matrix with zero columns
and zero rows (every genome vanishes, having no hits); an empty genome
set yields a matrix with zero rows and one column per input marker. -/
theorem claim_C9_amended (G M : List String) (hits : String → String → Nat) :
    (∃ df, runPipeline G [] hits = Except.ok df ∧ df.cols = [] ∧ df.rows = [])
      ∧ (∃ df, runPipeline [] M hits = Except.ok df
          ∧ df.rows = [] ∧ df.cols = M) := by
  constructor
  · refine ⟨assemble [] [], ?_, rfl, rfl⟩
    unfold runPipeline
    rw [parseAll_orchFS_nil_markers G hits]
    rfl
  · refine ⟨assemble [] M, ?_, rfl, ?_⟩
    · rfl
    · show M.filter (fun p => !(dfColumns []).contains p) ++ dfColumns [] = M
      rw [show dfColumns [] = [] from rfl, List.append_nil]
      rw [show (fun p => !(([] : List String).contains p)) = (fun _ => true) from rfl]
      exact List.filter_true M

/-- C10 (counterexample): the claim promises exact pair recovery from the
file name whenever identifiers contain no `-`. The marker "x.outy"
contains no `-`, yet `replace(".out", "")` also deletes its interior
".out", so the parser reconstructs the marker as "xy". -/
theorem claim_C10_counterexample :
    ('-' ∉ ("A" : String).data) ∧ ('-' ∉ ("x.outy" : String).data)
      ∧ parsedProt (fileName "A" "x.outy") = Except.ok "xy"
      ∧ ("xy" : String) ≠ "x.outy" :=
  ⟨by decide, by decide, rfl, by decide⟩

/-- C10 (amended): when identifiers contain no `-` and no occurrence of
".out", the parser's reconstruction from the file name recovers exactly
the (genome, marker) pair and the reconstructed path equals the path the
orchestrator wrote; and for some identifier containing `-` the
reconstructed path differs from the written one. -/
theorem claim_C10_amended (g m : String)
    (hgd : '-' ∉ g.data) (hmd : '-' ∉ m.data)
    (hgo : ¬ outPat <:+: g.data) (hmo : ¬ outPat <:+: m.data) :
    (parsedGenome (fileName g m) = Except.ok g
      ∧ parsedProt (fileName g m) = Except.ok m
      ∧ reconPath (fileName g m) = Except.ok (outPath g m))
    ∧ ∃ g2 m2 : String, '-' ∈ g2.data
        ∧ reconPath (fileName g2 m2) ≠ Except.ok (outPath g2 m2) := by
  constructor
  · refine ⟨parsedGenome_fileName g m hgd,
      parsedProt_fileName g m hgd hgo hmd hmo, ?_⟩
    unfold reconPath
    rw [parsedGenome_fileName g m hgd]
    rfl
  · refine ⟨"a-b", "c", by decide, ?_⟩
    intro h
    have h1 : reconPath (fileName "a-b" "c") = Except.ok "out/a/a-b-c.out" := rfl
    rw [h1] at h
    injection h with h2
    have : ("out/a/a-b-c.out" : String) ≠ outPath "a-b" "c" := by decide
    exact this h2

/-- C5 (witness): the amended aggregation shape at a concrete input. -/
theorem claim_C5_witness :
    ∃ ad, parseAll (orchFS ["A"] ["m1"] (fun _ _ => 2)) = Except.ok ad
      ∧ ∀ g ∈ (["A"] : List String), ∀ m ∈ (["m1"] : List String),
          pyDictFind? ((pyDictFind? ad g).getD []) m
            = if (2 : Nat) = 0 then none else some 2 :=
  claim_C5_amended ["A"] ["m1"] (fun _ _ => 2) (by decide) (by decide) (by decide)

/-- C1 (counterexample): the claim promises one matrix row per input
genome regardless of hit counts. A run on genome set {A} and marker set
{m1} where the search reports zero hits produces a matrix with zero rows:
the zero-hit report yields no query result, so genome A never enters
`all_dicts`. -/
theorem claim_C1_counterexample :
    ∃ df, runPipeline ["A"] ["m1"] (fun _ _ => 0) = Except.ok df
      ∧ df.rows.length ≠ (["A"] : List String).length :=
  ⟨⟨["m1"], []⟩, rfl, by decide⟩

/-- C1 (amended): for well-formed, duplicate-free identifiers the matrix
has exactly one column per input marker, and one row per genome with at
least one reported hit (so one row per genome exactly when every genome
has a hit somewhere); a genome whose searches all report zero hits has no
row. -/
theorem claim_C1_amended (G M : List String) (hits : String → String → Nat)
    (hGM : goodIds G M) (hGn : G.Nodup) (hMn : M.Nodup) :
    ∃ df, runPipeline G M hits = Except.ok df
      ∧ df.cols.length = M.length
      ∧ df.rows.map Prod.fst = G.filter (hasHit M hits)
      ∧ df.rows.length = (G.filter (hasHit M hits)).length := by
  refine ⟨assemble (idAgg G M hits) M, runPipeline_orch G M hits hGM, ?_, ?_, ?_⟩
  · show (M.filter (fun p => !(dfColumns (idAgg G M hits)).contains p)
      ++ dfColumns (idAgg G M hits)).length = M.length
    rw [List.length_append]
    exact length_absent_add_existing (dfColumns (idAgg G M hits)) M hMn
      (nodup_dfColumns _) (dfColumns_idAgg_sub G M hits hGn hMn)
  · rw [assemble_idAgg_rows G M hits hGn, List.map_map]
    exact List.map_id _
  · rw [assemble_idAgg_rows G M hits hGn, List.length_map]

/-- C1 (witness): the amended row and column shape at a concrete input. -/
theorem claim_C1_witness :
    ∃ df, runPipeline ["A"] ["m1"] (fun _ _ => 1) = Except.ok df
      ∧ df.cols.length = (["m1"] : List String).length
      ∧ df.rows.map Prod.fst
          = (["A"] : List String).filter (hasHit ["m1"] (fun _ _ => 1))
      ∧ df.rows.length
          = ((["A"] : List String).filter (hasHit ["m1"] (fun _ _ => 1))).length :=
  claim_C1_amended ["A"] ["m1"] (fun _ _ => 1) (by decide) (by decide) (by decide)

/-- C2 (confirmed): for every completed run, the column order of the
matrix is the input markers observed in no genome's parsed results (in
marker-input order) followed by the observed markers (in the first-seen
order of the aggregation, `dfColumns`); every column of the first block
holds only zeros and every column of the second block has at least one
nonzero entry, so every zero-only column precedes every column with a
nonzero entry. -/
theorem claim_C2 (G M : List String) (hits : String → String → Nat) (df : DF)
    (h : runPipeline G M hits = Except.ok df) :
    ∃ ad, parseAll (orchFS G M hits) = Except.ok ad
      ∧ df.cols = M.filter (fun p => !(dfColumns ad).contains p) ++ dfColumns ad
      ∧ (∀ c ∈ M, c ∉ dfColumns ad → colAll0 df c)
      ∧ (∀ c ∈ dfColumns ad, colHasPos df c) := by
  unfold runPipeline at h
  cases hpa : parseAll (orchFS G M hits) with
  | error e =>
    rw [hpa] at h
    exact Except.noConfusion h
  | ok ad =>
    rw [hpa, exceptMapOk] at h
    injection h with h2
    subst h2
    refine ⟨ad, rfl, rfl, ?_, ?_⟩
    · intro c hcM hcn r hr i hi
      rcases List.mem_map.mp hr with ⟨r0, hr0, rfl⟩
      show ((assemble ad M).cols.map
        (fun c' => (pyDictFind? r0.2 c').getD 0)).get? i = some 0
      rw [List.get?_map, hi]
      show some ((pyDictFind? r0.2 c).getD 0) = some 0
      rw [pyDictFind?_eq_none r0.2 c
        (fun p hp hpc => hcn ((mem_dfColumns ad c).mpr ⟨r0, hr0, p, hp, hpc⟩))]
      rfl
    · intro c hc
      rcases (mem_dfColumns ad c).mp hc with ⟨r0, hr0, kv, hkv, hkvc⟩
      have hfs : (r0.2.find? (fun p => p.1 == c)).isSome = true :=
        List.find?_isSome.mpr ⟨kv, hkv, by simpa using hkvc⟩
      obtain ⟨kv', hkv'⟩ := Option.isSome_iff_exists.mp hfs
      have hkv'mem : kv' ∈ r0.2 := List.mem_of_find?_eq_some hkv'
      have hkv'pos : 1 ≤ kv'.2 := parseAll_pos _ ad hpa r0 hr0 kv' hkv'mem
      refine ⟨(r0.1, (assemble ad M).cols.map
          (fun c' => (pyDictFind? r0.2 c').getD 0)),
        List.mem_map.mpr ⟨r0, hr0, rfl⟩, ?_⟩
      have hcall : c ∈ (assemble ad M).cols := List.mem_append.mpr (Or.inr hc)
      rcases List.mem_iff_get?.mp hcall with ⟨i, hgi⟩
      refine ⟨i, hgi, (pyDictFind? r0.2 c).getD 0, ?_, ?_⟩
      · rw [List.get?_map, hgi]
        rfl
      · unfold pyDictFind?
        rw [hkv']
        simpa using hkv'pos

/-- C2 (witness): the column order and zero structure at a concrete run:
marker m2 (no hits) precedes marker m1 (one hit in genome A). -/
theorem claim_C2_witness :
    ∃ ad, parseAll (orchFS ["A"] ["m1", "m2"]
          (fun _ m => if m = "m1" then 1 else 0)) = Except.ok ad
      ∧ (⟨["m2", "m1"], [("A", [0, 1])]⟩ : DF).cols
          = (["m1", "m2"] : List String).filter
              (fun p => !(dfColumns ad).contains p) ++ dfColumns ad
      ∧ (∀ c ∈ (["m1", "m2"] : List String), c ∉ dfColumns ad
          → colAll0 ⟨["m2", "m1"], [("A", [0, 1])]⟩ c)
      ∧ (∀ c ∈ dfColumns ad, colHasPos ⟨["m2", "m1"], [("A", [0, 1])]⟩ c) :=
  claim_C2 ["A"] ["m1", "m2"] (fun _ m => if m = "m1" then 1 else 0)
    ⟨["m2", "m1"], [("A", [0, 1])]⟩ rfl

/-- C3 (counterexample): the claim says every searched pair has a cell
equal to its reported hit count, with unrecorded pairs reading 0. For
genome A with zero hits on both markers, the matrix has no row for A at
all, so the cell (A, m1) does not exist, rather than holding 0. -/
theorem claim_C3_counterexample :
    ∃ df, runPipeline ["A"] ["m1", "m2"] (fun _ _ => 0) = Except.ok df
      ∧ dfCell df "A" "m1" = none :=
  ⟨⟨["m1", "m2"], []⟩, rfl, rfl⟩

/-- C3 (amended): for well-formed, duplicate-free identifiers, every
genome with at least one reported hit has a row in which the cell at each
searched marker equals that pair's reported hit count (0 when the pair
has no recorded count); a genome with no hit anywhere has no cells at
all. -/
theorem claim_C3_amended (G M : List String) (hits : String → String → Nat)
    (hGM : goodIds G M) (hGn : G.Nodup) (hMn : M.Nodup) :
    ∃ df, runPipeline G M hits = Except.ok df
      ∧ (∀ g ∈ G, hasHit M hits g → ∀ m ∈ M, dfCell df g m = some (hits g m))
      ∧ (∀ g, ¬ hasHit M hits g → ∀ m, dfCell df g m = none) := by
  refine ⟨assemble (idAgg G M hits) M, runPipeline_orch G M hits hGM, ?_, ?_⟩
  · intro g hgG hgh m hmM
    unfold dfCell
    rw [assemble_idAgg_rows G M hits hGn,
      find?_pair_map_of_mem _ _ g (List.mem_filter.mpr ⟨hgG, hgh⟩)]
    show rowLookup (assemble (idAgg G M hits) M).cols
      ((assemble (idAgg G M hits) M).cols.map
        (fun c => (pyDictFind? (gdOf M hits g) c).getD 0)) m = some (hits g m)
    have hmem : m ∈ (assemble (idAgg G M hits) M).cols :=
      mem_allCols (dfColumns (idAgg G M hits)) M m hmM
    rw [rowLookup_map _ _ m hmem]
    rw [gdOf_eq M hits g hMn, pyDictFind?_filter_map M _ _ m hmM hMn]
    by_cases hz : hits g m = 0
    · simp [hz]
    · simp [hz]
  · intro g hgh m
    unfold dfCell
    rw [assemble_idAgg_rows G M hits hGn,
      find?_pair_map_of_not_mem _ _ g
        (fun hmem => hgh (List.mem_filter.mp hmem).2)]
    rfl

/-- C3 (witness): the amended cell contents at a concrete run. -/
theorem claim_C3_witness :
    ∃ df, runPipeline ["A"] ["m1", "m2"]
          (fun _ m => if m = "m1" then 2 else 0) = Except.ok df
      ∧ (∀ g ∈ (["A"] : List String),
          hasHit ["m1", "m2"] (fun _ m => if m = "m1" then 2 else 0) g
          → ∀ m ∈ (["m1", "m2"] : List String),
              dfCell df g m = some (if m = "m1" then 2 else 0))
      ∧ (∀ g, ¬ hasHit ["m1", "m2"] (fun _ m => if m = "m1" then 2 else 0) g
          → ∀ m, dfCell df g m = none) :=
  claim_C3_amended ["A"] ["m1", "m2"] (fun _ m => if m = "m1" then 2 else 0)
    (by decide) (by decide) (by decide)

/-- C6 (confirmed): every cell of every assembled matrix is defined and
holds a non-negative integer: each row has exactly one value per column,
and looking up any column label in any row yields a natural number, whose
integer value is at least 0. -/
theorem claim_C6 (ad : AllDicts) (M : List String) :
    ∀ r ∈ (assemble ad M).rows,
      r.2.length = (assemble ad M).cols.length
        ∧ ∀ c ∈ (assemble ad M).cols,
            ∃ v : Nat, rowLookup (assemble ad M).cols r.2 c = some v
              ∧ 0 ≤ (v : Int) := by
  intro r hr
  rcases List.mem_map.mp hr with ⟨r0, hr0, rfl⟩
  constructor
  · exact List.length_map _ _
  · intro c hc
    exact ⟨(pyDictFind? r0.2 c).getD 0, rowLookup_map _ _ c hc,
      Int.natCast_nonneg _⟩

/-- C6 (witness): the cell invariant at a concrete assembled matrix. -/
theorem claim_C6_witness :
    ("A", ([2] : List Nat)) ∈ (assemble [("A", [("m1", 2)])] ["m1"]).rows
      ∧ (("A", ([2] : List Nat)).2.length
            = (assemble [("A", [("m1", 2)])] ["m1"]).cols.length
          ∧ ∀ c ∈ (assemble [("A", [("m1", 2)])] ["m1"]).cols,
              ∃ v : Nat, rowLookup (assemble [("A", [("m1", 2)])] ["m1"]).cols
                  ("A", ([2] : List Nat)).2 c = some v ∧ 0 ≤ (v : Int)) :=
  ⟨by decide, claim_C6 [("A", [("m1", 2)])] ["m1"] ("A", [2]) (by decide)⟩

/-- C10 (witness): the amended round trip at a concrete well-formed
pair. -/
theorem claim_C10_witness :
    (parsedGenome (fileName "A" "m1") = Except.ok "A"
      ∧ parsedProt (fileName "A" "m1") = Except.ok "m1"
      ∧ reconPath (fileName "A" "m1") = Except.ok (outPath "A" "m1"))
    ∧ ∃ g2 m2 : String, '-' ∈ g2.data
        ∧ reconPath (fileName g2 m2) ≠ Except.ok (outPath g2 m2) :=
  claim_C10_amended "A" "m1" (by decide) (by decide) (by decide) (by decide)

end MetabolisHMM
